import Mathlib

/-!
Shallow embedding of the `n_body` module of `src/src/lib.rs` (crate
`n-body-problem`), an N-body gravity simulation.

Numeric model: the source computes with IEEE `f32`.  We model an `f32`
value as `F`: either `F.fin q` with an exact rational payload, or `F.nan`,
which stands for any non-finite IEEE result (NaN or an infinity — no claim
below distinguishes the two, and every non-finite value arising in the
claims is a genuine NaN in IEEE arithmetic).  Finite arithmetic is modelled
exactly (no rounding); any operation with a non-finite operand, or a
division by zero, yields `F.nan`.  The two transcendental operations the
source uses, `f32::sqrt` (inside `Vec3::length`) and `f32::powf`, are kept
abstract: definitions that need them take parameters
`sq : ℚ → ℚ` (square root on finite non-negative inputs) and
`pw : ℚ → ℚ → ℚ` (powf on finite inputs), so every theorem quantifying
over them holds for every interpretation, in particular the IEEE one.
`Vec3` (from glam, re-exported by macroquad) becomes `V3`, three `F`
components; its operations are the scalar (non-SIMD) glam definitions.

The base model performs finite arithmetic exactly (no rounding).  Where a
claim turns on the bit-level effect of f32 rounding, a refinement is used
instead: `round32` rounds an exact rational to the nearest binary32 value
(round-to-nearest, ties-to-even, 24-bit significand), and the `...R`
operations apply it after every arithmetic step, exactly as IEEE f32
evaluates each operation.
-/

namespace n_body

/-- Model of one `f32` value: an exact finite payload or a non-finite value. -/
inductive F where
  | fin : ℚ → F
  | nan : F
deriving DecidableEq, Repr, Inhabited

def F.add : F → F → F
  | .fin a, .fin b => .fin (a + b)
  | _, _ => .nan

def F.sub : F → F → F
  | .fin a, .fin b => .fin (a - b)
  | _, _ => .nan

def F.mul : F → F → F
  | .fin a, .fin b => .fin (a * b)
  | _, _ => .nan

/-- IEEE division: finite / finite is exact, except that a zero divisor
gives a non-finite result (±∞ for a non-zero dividend, NaN for 0/0). -/
def F.div : F → F → F
  | .fin a, .fin b => if b = 0 then .nan else .fin (a / b)
  | _, _ => .nan

def F.neg : F → F
  | .fin a => .fin (-a)
  | .nan => .nan

instance : Add F := ⟨F.add⟩
instance : Sub F := ⟨F.sub⟩
instance : Mul F := ⟨F.mul⟩
instance : Div F := ⟨F.div⟩
instance : Neg F := ⟨F.neg⟩

/-- Rust `f32::max` (used as `.max(1.0)` in the source): if one operand is
NaN the other is returned. -/
def F.fmax : F → F → F
  | .fin a, .fin b => .fin (max a b)
  | .fin a, .nan => .fin a
  | .nan, .fin b => .fin b
  | .nan, .nan => .nan

/-- `f32::sqrt`, with the finite non-negative case interpreted by the
abstract parameter `sq`; a negative finite input yields NaN in IEEE. -/
def F.sqrtF (sq : ℚ → ℚ) : F → F
  | .fin a => if a < 0 then .nan else .fin (sq a)
  | .nan => .nan

/-- `f32::powf`, with the finite case interpreted by the abstract
parameter `pw`. -/
def F.powf (pw : ℚ → ℚ → ℚ) : F → F → F
  | .fin a, .fin b => .fin (pw a b)
  | _, _ => .nan

/-- `f32::recip`: `1.0 / self`. -/
def F.recip (x : F) : F := F.fin 1 / x

/-- glam `Vec3`: three `f32` components. -/
structure V3 where
  x : F
  y : F
  z : F
deriving DecidableEq, Repr, Inhabited

def V3.add (v w : V3) : V3 := ⟨v.x + w.x, v.y + w.y, v.z + w.z⟩

def V3.sub (v w : V3) : V3 := ⟨v.x - w.x, v.y - w.y, v.z - w.z⟩

def V3.neg (v : V3) : V3 := ⟨-v.x, -v.y, -v.z⟩

instance : Add V3 := ⟨V3.add⟩
instance : Sub V3 := ⟨V3.sub⟩
instance : Neg V3 := ⟨V3.neg⟩

/-- glam `Vec3 * f32` (componentwise). -/
def V3.smul (v : V3) (c : F) : V3 := ⟨v.x * c, v.y * c, v.z * c⟩

/-- glam `Vec3 / f32` (componentwise). -/
def V3.divScalar (v : V3) (c : F) : V3 := ⟨v.x / c, v.y / c, v.z / c⟩

/-- glam `Vec3::new(0.0, 0.0, 0.0)`. -/
def V3.zero : V3 := ⟨F.fin 0, F.fin 0, F.fin 0⟩

/-- glam `Vec3::dot`: `self.x * rhs.x + self.y * rhs.y + self.z * rhs.z`. -/
def V3.dot (v w : V3) : F := v.x * w.x + v.y * w.y + v.z * w.z

/-- glam `Vec3::length_squared`: `self.dot(self)`. -/
def V3.length_squared (v : V3) : F := v.dot v

/-- glam `Vec3::length`: `sqrt(self.dot(self))`. -/
def V3.length (sq : ℚ → ℚ) (v : V3) : F := (v.dot v).sqrtF sq

/-- glam `Vec3::normalize`: `self * self.length().recip()` (no zero-length
guard in release builds: a zero-length input divides by zero). -/
def V3.normalize (sq : ℚ → ℚ) (v : V3) : V3 := v.smul (v.length sq).recip

/-- `const G: f32 = 6.67430e-11;` (modelled as the exact decimal). -/
def G : ℚ := 667430 / 10 ^ 16

/-- `struct Body` from the source. -/
structure Body where
  position : V3
  velocity : V3
  mass : F
  trajectory : List V3
  name : String
  radius : F
deriving DecidableEq, Repr, Inhabited

/-- `Body::new`: empty trajectory, `radius = mass.powf(1.0/15.0)`. -/
def Body.new (pw : ℚ → ℚ → ℚ) (position velocity : V3) (mass : F)
    (name : String) : Body :=
  { position := position
    velocity := velocity
    mass := mass
    trajectory := []
    name := name
    radius := mass.powf pw (F.fin (1 / 15)) }

/-- `Body::update`: `position += velocity * dt`, push the new position on
the trajectory, and if the length now exceeds 500 remove the front entry
(`remove(0)`, i.e. `tail` of a non-empty list). -/
def Body.update (b : Body) (dt : F) : Body :=
  let pos := b.position + b.velocity.smul dt
  let tr := b.trajectory ++ [pos]
  { b with
    position := pos
    trajectory := if tr.length > 500 then tr.tail else tr }

/-- `Body::apply_force`: `velocity += (force / self.mass) * dt`. -/
def Body.apply_force (b : Body) (force : V3) (dt : F) : Body :=
  { b with velocity := b.velocity + (force.divScalar b.mass).smul dt }

/-- `gravitational_force`: direction, floored distance, inverse-square
magnitude, applied to the (unfloored) normalized direction. -/
def gravitational_force (sq : ℚ → ℚ) (body1 body2 : Body) : V3 :=
  let direction := body2.position - body1.position
  let distance := (direction.length sq).fmax (F.fin 1)
  let force_magnitude := F.fin G * body1.mass * body2.mass / (distance * distance)
  (direction.normalize sq).smul force_magnitude

/-- `kinetic_energy`: `0.5 * mass * velocity.length_squared()`. -/
def kinetic_energy (body : Body) : F :=
  F.fin (1 / 2) * body.mass * body.velocity.length_squared

/-- `potential_energy`: `-G * m1 * m2 / max(|p2 - p1|, 1.0)`. -/
def potential_energy (sq : ℚ → ℚ) (body1 body2 : Body) : F :=
  let distance := ((body2.position - body1.position).length sq).fmax (F.fin 1)
  F.fin (-G) * body1.mass * body2.mass / distance

/-- `struct Bodies` from the source. -/
structure Bodies where
  bodies : List Body
  total_potential_energy : F
  total_kinetic_energy : F
  time_averaged_potential_energy : F
  time_averaged_kinetic_energy : F
  total_time : F
  kinetic_energy : F
  potential_energy : F
deriving DecidableEq, Repr, Inhabited

/-- `Bodies::new`: empty collection, all scalar fields `0.0`. -/
def Bodies.new : Bodies :=
  { bodies := []
    total_potential_energy := F.fin 0
    total_kinetic_energy := F.fin 0
    time_averaged_potential_energy := F.fin 0
    time_averaged_kinetic_energy := F.fin 0
    total_time := F.fin 0
    kinetic_energy := F.fin 0
    potential_energy := F.fin 0 }

/-- `Bodies::add_body`: push onto the collection. -/
def Bodies.add_body (s : Bodies) (body : Body) : Bodies :=
  { s with bodies := s.bodies ++ [body] }

/-- The private method `Bodies::total_kinetic_energy` (named `_of` here
because Lean cannot reuse the field's name): `iter().map(kinetic_energy).sum()`,
a left fold from `0.0` over the collection. -/
def total_kinetic_energy_of (bs : List Body) : F :=
  (bs.map kinetic_energy).foldl (· + ·) (F.fin 0)

/-- The private method `Bodies::total_potential_energy`:
`for i in 0..len { for j in i+1..len { total += potential_energy(i, j) } }`. -/
def total_potential_energy_of (sq : ℚ → ℚ) (bs : List Body) : F :=
  (List.range bs.length).foldl
    (fun acc i =>
      (List.range' (i + 1) (bs.length - (i + 1))).foldl
        (fun acc2 j => acc2 + potential_energy sq (bs.getD i default) (bs.getD j default))
        acc)
    (F.fin 0)

/-- `Bodies::update`: advance every body, recompute the instantaneous
energies from the advanced bodies, accumulate them and the elapsed time,
and recompute the time averages — in the source's assignment order. -/
def Bodies.update (sq : ℚ → ℚ) (s : Bodies) (dt : F) : Bodies :=
  let bs := s.bodies.map (fun b => b.update dt)
  let ke := total_kinetic_energy_of bs
  let pe := total_potential_energy_of sq bs
  let tke := s.total_kinetic_energy + ke
  let tpe := s.total_potential_energy + pe
  let tt := s.total_time + dt
  { bodies := bs
    total_potential_energy := tpe
    total_kinetic_energy := tke
    time_averaged_potential_energy := tpe / tt
    time_averaged_kinetic_energy := tke / tt
    total_time := tt
    kinetic_energy := ke
    potential_energy := pe }

/-- Inner loop of `Bodies::apply_force`: the net force on index `i`,
summed over every `j != i` of the current collection. -/
def force_on (sq : ℚ → ℚ) (bs : List Body) (i : Nat) : V3 :=
  (List.range bs.length).foldl
    (fun total_force j =>
      if i ≠ j then total_force + gravitational_force sq (bs.getD i default) (bs.getD j default)
      else total_force)
    V3.zero

/-- One iteration of the outer loop of `Bodies::apply_force`:
`self.bodies[i].apply_force(total_force, dt)`. -/
def apply_force_step (sq : ℚ → ℚ) (dt : F) (bs : List Body) (i : Nat) : List Body :=
  bs.set i ((bs.getD i default).apply_force (force_on sq bs i) dt)

/-- `Bodies::apply_force`: `for i in 0..len`, accumulate the pairwise
forces on body `i` from the current collection, then update its velocity. -/
def Bodies.apply_force (sq : ℚ → ℚ) (s : Bodies) (dt : F) : Bodies :=
  { s with bodies := (List.range s.bodies.length).foldl (apply_force_step sq dt) s.bodies }

/-- One raw JSON record as the source accesses it: `body["name"].as_str()`,
`body["position"][k].as_f64()`, `body["velocity"][k].as_f64()`,
`body["mass"].as_f32()` — each access yields `none` when the field is
missing or of the wrong shape. -/
structure RawRecord where
  name : Option String
  position : Option ℚ × Option ℚ × Option ℚ
  velocity : Option ℚ × Option ℚ × Option ℚ
  mass : Option ℚ
deriving DecidableEq, Repr, Inhabited

/-- The per-record body of the `parse_json` loop: validate `name`,
`position`, `velocity`, `mass` in order; any failure skips the record
(`continue`), success builds `Body::new`. -/
def parse_record (pw : ℚ → ℚ → ℚ) (r : RawRecord) : Option Body :=
  match r.name with
  | none => none
  | some name =>
    match r.position with
    | (some x, some y, some z) =>
      match r.velocity with
      | (some vx, some vy, some vz) =>
        match r.mass with
        | none => none
        | some mass =>
          some (Body.new pw ⟨F.fin x, F.fin y, F.fin z⟩ ⟨F.fin vx, F.fin vy, F.fin vz⟩
            (F.fin mass) name)
      | _ => none
    | _ => none

/-- `Bodies::parse_json`.  The three source-level failure exits (file
open error, file read error, JSON parse error) each print a diagnostic
and `return` with `self` untouched; they are the `Except.error` case.
On success the loop walks the parsed records, skipping invalid ones and
`add_body`-ing each valid one. -/
def Bodies.parse_json (pw : ℚ → ℚ → ℚ) (s : Bodies)
    (src : Except String (List RawRecord)) : Bodies :=
  match src with
  | .error _ => s
  | .ok records =>
    records.foldl
      (fun st r =>
        match parse_record pw r with
        | none => st
        | some b => st.add_body b)
      s

/-- Iterate `Body::update` over a sequence of tick durations. -/
def run_body (b : Body) (dts : List F) : Body := dts.foldl Body.update b

/-- The chronological list of positions recorded (pushed onto the
trajectory) by a sequence of ticks, oldest first. -/
def recorded_positions : Body → List F → List V3
  | _, [] => []
  | b, dt :: rest => (b.update dt).position :: recorded_positions (b.update dt) rest

/-- Iterate `Bodies::update` over a sequence of tick durations. -/
def run_updates (sq : ℚ → ℚ) (s : Bodies) (dts : List F) : Bodies :=
  dts.foldl (Bodies.update sq) s

/-- The ordered list of index pairs `(i, j)` with `i < j < n`, exactly the
pairs visited by the nested loops of `Bodies::total_potential_energy`. -/
def pair_indices (n : Nat) : List (Nat × Nat) :=
  ((List.range n).map (fun i => (List.range' (i + 1) (n - (i + 1))).map (fun j => (i, j)))).flatten

/-- The bodies a load adds: none on a source-level failure, the valid
records' bodies (in order) on success. -/
def loaded_bodies (pw : ℚ → ℚ → ℚ) : Except String (List RawRecord) → List Body
  | .error _ => []
  | .ok records => records.filterMap (parse_record pw)

/-- Fuel-driven `⌊log₂⌋` on naturals (the fuel only bounds the recursion
depth; `fuel = n` always suffices). -/
def log2Aux : Nat → Nat → Nat
  | 0, _ => 0
  | fuel + 1, n => if n < 2 then 0 else log2Aux fuel (n / 2) + 1

def nlog2 (n : Nat) : Nat := log2Aux n n

/-- `⌊log₂ (a / b)⌋` for positive naturals `a`, `b`: it is `k - l` or
`k - l - 1` where `k = ⌊log₂ a⌋`, `l = ⌊log₂ b⌋`, decided by comparing
`a / b` with `2 ^ (k - l)`. -/
def floorLog2Frac (a b : ℕ) : ℤ :=
  if b * 2 ^ nlog2 a ≤ a * 2 ^ nlog2 b then (nlog2 a : ℤ) - nlog2 b
  else (nlog2 a : ℤ) - nlog2 b - 1

/-- Round the fraction `a / b` (with `b > 0`) to an integer, IEEE style:
nearest, ties to even. -/
def roundNearestEvenNat (a b : ℕ) : ℕ :=
  let f := a / b
  let r := a % b
  if 2 * r < b then f
  else if b < 2 * r then f + 1
  else if f % 2 = 0 then f else f + 1

/-- Round the positive fraction `a / b` to 24 significant binary digits,
nearest, ties to even: scale into `[2^23, 2^24)`, round to an integer,
scale back. -/
def round32PosFrac (a b : ℕ) : ℚ :=
  let s : ℤ := floorLog2Frac a b - 23
  if 0 ≤ s then ((roundNearestEvenNat a (b * 2 ^ s.toNat) * 2 ^ s.toNat : ℕ) : ℚ)
  else mkRat (roundNearestEvenNat (a * 2 ^ (-s).toNat) b) (2 ^ (-s).toNat)

/-- IEEE-754 binary32 round-to-nearest-even of the exact fraction
`a / b`, with unbounded exponent: no overflow or subnormal handling, which
agrees with IEEE on the normal range, where every value reached below
lies.  (Everything is integer arithmetic so that the kernel can evaluate
it; the rational arithmetic of this Mathlib version does not reduce.) -/
def round32Frac (a b : ℤ) : ℚ :=
  if a = 0 ∨ b = 0 then 0
  else if (0 < a ∧ 0 < b) ∨ (a < 0 ∧ b < 0) then round32PosFrac a.natAbs b.natAbs
  else -round32PosFrac a.natAbs b.natAbs

/-- Binary32 rounding of an exact rational. -/
def round32 (q : ℚ) : ℚ := round32Frac q.num q.den

/-- f32 addition with rounding: IEEE computes the exact sum
`(a.num * b.den + b.num * a.den) / (a.den * b.den)`, then rounds it to
binary32. -/
def F.addR : F → F → F
  | .fin a, .fin b => .fin (round32Frac (a.num * b.den + b.num * a.den) (a.den * b.den))
  | _, _ => .nan

/-- f32 subtraction with rounding: the exact difference, rounded. -/
def F.subR : F → F → F
  | .fin a, .fin b => .fin (round32Frac (a.num * b.den - b.num * a.den) (a.den * b.den))
  | _, _ => .nan

/-- f32 multiplication with rounding: the exact product
`(a.num * b.num) / (a.den * b.den)`, rounded.  This is non-associative:
`(x * y) * z` and `(x * z) * y` can differ in the final ulp. -/
def F.mulR : F → F → F
  | .fin a, .fin b => .fin (round32Frac (a.num * b.num) (a.den * b.den))
  | _, _ => .nan

/-- f32 division with rounding: the exact quotient
`(a.num * b.den) / (a.den * b.num)`, rounded; a zero divisor is
non-finite. -/
def F.divR : F → F → F
  | .fin a, .fin b => if b = 0 then .nan else .fin (round32Frac (a.num * b.den) (a.den * b.num))
  | _, _ => .nan

/-- f32 sqrt in the rounded model; IEEE sqrt is correctly rounded, and the
parameter `sqR` stands for that rounded result on non-negative finite
inputs. -/
def F.sqrtR (sqR : ℚ → ℚ) : F → F
  | .fin a => if a < 0 then .nan else .fin (sqR a)
  | .nan => .nan

def F.recipR (x : F) : F := F.divR (F.fin 1) x

def V3.subR (v w : V3) : V3 := ⟨F.subR v.x w.x, F.subR v.y w.y, F.subR v.z w.z⟩

def V3.smulR (v : V3) (c : F) : V3 := ⟨F.mulR v.x c, F.mulR v.y c, F.mulR v.z c⟩

def V3.dotR (v w : V3) : F :=
  F.addR (F.addR (F.mulR v.x w.x) (F.mulR v.y w.y)) (F.mulR v.z w.z)

def V3.lengthR (sqR : ℚ → ℚ) (v : V3) : F := F.sqrtR sqR (V3.dotR v v)

def V3.normalizeR (sqR : ℚ → ℚ) (v : V3) : V3 :=
  V3.smulR v (F.recipR (V3.lengthR sqR v))

/-- The f32 value of `const G: f32 = 6.67430e-11;`: the decimal
`667430 / 10^16` rounded to binary32. -/
def G32 : ℚ := round32Frac 667430 (10 ^ 16)

/-- `gravitational_force` in the rounded (bit-level) model: the same
source expression with each f32 operation rounded.  `f32::max` is exact in
IEEE, so `F.fmax` is reused unrounded. -/
def gravitational_forceR (sqR : ℚ → ℚ) (body1 body2 : Body) : V3 :=
  let direction := V3.subR body2.position body1.position
  let distance := F.fmax (V3.lengthR sqR direction) (F.fin 1)
  let force_magnitude := F.divR (F.mulR (F.mulR (F.fin G32) body1.mass) body2.mass)
    (F.mulR distance distance)
  V3.smulR (V3.normalizeR sqR direction) force_magnitude

theorem F.fin_add_fin (a b : ℚ) : F.fin a + F.fin b = F.fin (a + b) := rfl

theorem F.nan_add (x : F) : F.nan + x = F.nan := rfl

theorem F.add_nan (x : F) : x + F.nan = F.nan := by cases x <;> rfl

theorem F.fin_sub_fin (a b : ℚ) : F.fin a - F.fin b = F.fin (a - b) := rfl

theorem F.nan_sub (x : F) : F.nan - x = F.nan := rfl

theorem F.sub_nan (x : F) : x - F.nan = F.nan := by cases x <;> rfl

theorem F.fin_mul_fin (a b : ℚ) : F.fin a * F.fin b = F.fin (a * b) := rfl

theorem F.nan_mul (x : F) : F.nan * x = F.nan := rfl

theorem F.mul_nan (x : F) : x * F.nan = F.nan := by cases x <;> rfl

theorem F.fin_div_fin (a b : ℚ) :
    F.fin a / F.fin b = if b = 0 then F.nan else F.fin (a / b) := rfl

theorem F.nan_div (x : F) : F.nan / x = F.nan := rfl

theorem F.div_nan (x : F) : x / F.nan = F.nan := by cases x <;> rfl

theorem F.neg_fin (a : ℚ) : -F.fin a = F.fin (-a) := rfl

theorem F.neg_nan : -F.nan = F.nan := rfl

/-- `Bodies::parse_json` on a successfully read and parsed source appends
exactly the valid records' bodies and touches no other field. -/
theorem parse_json_ok_eq (pw : ℚ → ℚ → ℚ) (s : Bodies) (rs : List RawRecord) :
    s.parse_json pw (Except.ok rs)
      = { s with bodies := s.bodies ++ rs.filterMap (parse_record pw) } := by
  induction rs generalizing s with
  | nil => simp [Bodies.parse_json]
  | cons r rs ih =>
    cases h : parse_record pw r with
    | none =>
      have h1 : s.parse_json pw (Except.ok (r :: rs)) = s.parse_json pw (Except.ok rs) := by
        simp [Bodies.parse_json, h]
      rw [h1, ih]
      simp [List.filterMap_cons, h]
    | some b =>
      have h1 : s.parse_json pw (Except.ok (r :: rs))
          = (s.add_body b).parse_json pw (Except.ok rs) := by
        simp [Bodies.parse_json, h]
      rw [h1, ih]
      simp [Bodies.add_body, List.filterMap_cons, h]

/-- Claim C7: a load whose source fails at the source level (file
unreadable, or contents not well-formed JSON) returns with the Simulation
State exactly as it was — no body added, no field changed; the failure is
only reported as a diagnostic (`eprintln!`), never a fatal error (the
embedded operation is total). -/
theorem C7_source_failure_leaves_state_unchanged (pw : ℚ → ℚ → ℚ) (s : Bodies)
    (msg : String) : s.parse_json pw (Except.error msg) = s := rfl

/-- Claim C10: `parse_json` only ever appends.  The bodies present before
the call remain, unmodified, as a prefix of the collection; every
energy/time field is unchanged; and loading the same source twice appends
the loaded bodies twice rather than replacing the collection. -/
theorem C10_parse_json_appends (pw : ℚ → ℚ → ℚ) (s : Bodies)
    (src : Except String (List RawRecord)) :
    (s.parse_json pw src).bodies = s.bodies ++ loaded_bodies pw src ∧
    (s.parse_json pw src).total_potential_energy = s.total_potential_energy ∧
    (s.parse_json pw src).total_kinetic_energy = s.total_kinetic_energy ∧
    (s.parse_json pw src).time_averaged_potential_energy = s.time_averaged_potential_energy ∧
    (s.parse_json pw src).time_averaged_kinetic_energy = s.time_averaged_kinetic_energy ∧
    (s.parse_json pw src).total_time = s.total_time ∧
    (s.parse_json pw src).kinetic_energy = s.kinetic_energy ∧
    (s.parse_json pw src).potential_energy = s.potential_energy ∧
    ((s.parse_json pw src).parse_json pw src).bodies
      = s.bodies ++ loaded_bodies pw src ++ loaded_bodies pw src := by
  cases src with
  | error msg =>
    simp [Bodies.parse_json, loaded_bodies]
  | ok rs =>
    simp [parse_json_ok_eq, loaded_bodies, List.append_assoc]

/-- Claim C9 counterexample: immediately after `Bodies::new`, before any
`update`, both time-averaged energies are the plain value `0.0` set by the
constructor — not NaN; no division has been performed. -/
theorem C9_counterexample :
    Bodies.new.time_averaged_kinetic_energy = F.fin 0 ∧
    Bodies.new.time_averaged_potential_energy = F.fin 0 ∧
    Bodies.new.time_averaged_kinetic_energy ≠ F.nan ∧
    Bodies.new.time_averaged_potential_energy ≠ F.nan := by
  refine ⟨rfl, rfl, ?_, ?_⟩ <;> exact fun h => F.noConfusion h

/-- Claim C9 (amended): immediately after construction the time-averaged
energies are `0.0` (assigned directly by the constructor; no division
occurs before the first `update`); the implicit `0.0 / 0.0` producing NaN
happens when `update` runs while `total_time` is still zero afterwards,
e.g. a first tick with `dt = 0`. -/
theorem C9_amended_time_average (sq : ℚ → ℚ) :
    Bodies.new.time_averaged_kinetic_energy = F.fin 0 ∧
    Bodies.new.time_averaged_potential_energy = F.fin 0 ∧
    (Bodies.new.update sq (F.fin 0)).time_averaged_kinetic_energy = F.nan ∧
    (Bodies.new.update sq (F.fin 0)).time_averaged_potential_energy = F.nan := by
  refine ⟨rfl, rfl, ?_, ?_⟩ <;>
    simp [Bodies.update, Bodies.new, total_kinetic_energy_of, total_potential_energy_of,
      F.fin_add_fin, F.fin_div_fin]

/-- Claim C4: one `Bodies::update(dt)` advances every body's position by
`velocity * dt` (leaving velocities alone), then stores the freshly
recomputed instantaneous kinetic/potential energies of the advanced
bodies, adds them to the running totals, adds `dt` to `total_time`, and
finally sets each time-averaged energy to its running total divided by
`total_time` — all in that order. -/
theorem C4_update_sequencing (sq : ℚ → ℚ) (s : Bodies) (dt : F) :
    (s.update sq dt).bodies.map Body.position
      = s.bodies.map (fun b => b.position + b.velocity.smul dt) ∧
    (s.update sq dt).bodies.map Body.velocity = s.bodies.map Body.velocity ∧
    (s.update sq dt).kinetic_energy = total_kinetic_energy_of (s.update sq dt).bodies ∧
    (s.update sq dt).potential_energy = total_potential_energy_of sq (s.update sq dt).bodies ∧
    (s.update sq dt).total_kinetic_energy
      = s.total_kinetic_energy + (s.update sq dt).kinetic_energy ∧
    (s.update sq dt).total_potential_energy
      = s.total_potential_energy + (s.update sq dt).potential_energy ∧
    (s.update sq dt).total_time = s.total_time + dt ∧
    (s.update sq dt).time_averaged_kinetic_energy
      = (s.update sq dt).total_kinetic_energy / (s.update sq dt).total_time ∧
    (s.update sq dt).time_averaged_potential_energy
      = (s.update sq dt).total_potential_energy / (s.update sq dt).total_time := by
  refine ⟨?_, ?_, rfl, rfl, rfl, rfl, rfl, rfl, rfl⟩ <;>
    · show List.map _ (List.map _ _) = _
      rw [List.map_map]
      rfl

theorem F.neg_neg (x : F) : - -x = x := by
  cases x <;> simp [F.neg_fin, F.neg_nan]

theorem F.neg_mul (x y : F) : (-x) * y = -(x * y) := by
  cases x <;> cases y <;>
    simp [F.neg_fin, F.neg_nan, F.fin_mul_fin, F.nan_mul, F.mul_nan]

theorem F.neg_mul_neg (x y : F) : (-x) * (-y) = x * y := by
  cases x <;> cases y <;>
    simp [F.neg_fin, F.neg_nan, F.fin_mul_fin, F.nan_mul, F.mul_nan]

theorem F.sub_antisym (x y : F) : x - y = -(y - x) := by
  cases x <;> cases y <;>
    simp [F.neg_fin, F.neg_nan, F.fin_sub_fin, F.nan_sub, F.sub_nan]

theorem F.mul_right_comm (x y z : F) : x * y * z = x * z * y := by
  cases x <;> cases y <;> cases z <;>
    · simp [F.fin_mul_fin, F.nan_mul, F.mul_nan]
      try ring

theorem V3.neg_involution (v : V3) : v.neg.neg = v := by
  cases v with
  | mk x y z => simp [V3.neg, F.neg_neg]

theorem V3.neg_smul (v : V3) (c : F) : v.neg.smul c = (v.smul c).neg := by
  cases v with
  | mk x y z => simp [V3.neg, V3.smul, F.neg_mul]

theorem V3.sub_antisymm_vec (v w : V3) : v - w = (w - v).neg := by
  cases v with
  | mk x y z =>
    cases w with
    | mk x' y' z' =>
      show V3.sub _ _ = _
      simp [V3.sub, V3.neg]
      exact ⟨F.sub_antisym x x', F.sub_antisym y y', F.sub_antisym z z'⟩

theorem V3.dot_neg_neg (v : V3) : v.neg.dot v.neg = v.dot v := by
  cases v with
  | mk x y z => simp [V3.neg, V3.dot, F.neg_mul_neg]

theorem V3.length_neg (sq : ℚ → ℚ) (v : V3) : v.neg.length sq = v.length sq := by
  simp [V3.length, V3.dot_neg_neg]

theorem V3.normalize_neg (sq : ℚ → ℚ) (v : V3) :
    v.neg.normalize sq = (v.normalize sq).neg := by
  simp [V3.normalize, V3.length_neg, V3.neg_smul]

/-- Claim C5 (amended): Newton's third law antisymmetry,
`gravitational_force(a, b) == -gravitational_force(b, a)`, holds in exact
arithmetic — with every f32 operation interpreted without rounding — for
every pair of bodies, distinct or not (when the two positions coincide
both sides are the same non-finite vector).  The bit-exact f32 equality is
refuted by the rounding counterexample: the source computes the magnitude
as `(G * body1.mass) * body2.mass`, so the two calls associate the product
differently and the rounded results can differ in the final ulp. -/
theorem C5_force_antisymmetry (sq : ℚ → ℚ) (a b : Body) :
    gravitational_force sq a b = (gravitational_force sq b a).neg := by
  simp only [gravitational_force]
  rw [show a.position - b.position = (b.position - a.position).neg from
    V3.sub_antisymm_vec a.position b.position]
  rw [V3.normalize_neg, V3.length_neg, V3.neg_smul, V3.neg_involution]
  rw [F.mul_right_comm (F.fin G) b.mass a.mass]

set_option maxRecDepth 40000 in
/-- Claim C5 counterexample, in the bit-level rounded model: two bodies
with the exactly representable f32 masses `91421514221486080`
(`10642865 * 2^33`) and `40576119413407744` (`9447364 * 2^32`), at
positions `(0,0,0)` and `(1,0,0)`, violate
`gravitational_force(a, b) == -gravitational_force(b, a)`.  Every
operation except the two magnitude products is exact here (the direction
is `(±1, 0, 0)`, its length 1, and IEEE `sqrt 1 = 1`, so `sqR` is
instantiated at any function with `sqR 1 = 1`), and the force vectors are
`(fl(fl(G*m1)*m2), 0, 0)` versus `(fl(fl(G*m2)*m1), 0, 0)`, whose
x-components differ in the final ulp. -/
theorem C5_rounding_counterexample :
    gravitational_forceR (fun q => q)
        (Body.new (fun _ _ => 0) V3.zero V3.zero (F.fin 91421514221486080) "a")
        (Body.new (fun _ _ => 0) ⟨F.fin 1, F.fin 0, F.fin 0⟩ V3.zero
          (F.fin 40576119413407744) "b")
      ≠ (gravitational_forceR (fun q => q)
          (Body.new (fun _ _ => 0) ⟨F.fin 1, F.fin 0, F.fin 0⟩ V3.zero
            (F.fin 40576119413407744) "b")
          (Body.new (fun _ _ => 0) V3.zero V3.zero (F.fin 91421514221486080) "a")).neg := by
  decide

theorem tail_append_left {α : Type} (xs ys : List α) (h : xs ≠ []) :
    (xs ++ ys).tail = xs.tail ++ ys := by
  cases xs with
  | nil => exact absurd rfl h
  | cons a as => rfl

theorem Body.update_trajectory (b : Body) (dt : F) :
    (b.update dt).trajectory =
      if (b.trajectory ++ [(b.update dt).position]).length > 500
      then (b.trajectory ++ [(b.update dt).position]).tail
      else b.trajectory ++ [(b.update dt).position] := rfl

theorem recorded_positions_length (dts : List F) :
    ∀ b : Body, (recorded_positions b dts).length = dts.length := by
  induction dts with
  | nil => intro b; rfl
  | cons dt rest ih => intro b; simp [recorded_positions, ih]

/-- Invariant of the trajectory queue: if a body's trajectory holds the
last (at most 500) recorded positions, one more tick preserves that. -/
theorem update_trajectory_drop (b : Body) (dt : F) (R : List V3)
    (h : b.trajectory = R.drop (R.length - 500)) :
    (b.update dt).trajectory
      = (R ++ [(b.update dt).position]).drop ((R ++ [(b.update dt).position]).length - 500) := by
  rw [Body.update_trajectory b dt, h]
  by_cases hn : R.length < 500
  · have h0 : R.length - 500 = 0 := by omega
    have h1 : R.length + 1 - 500 = 0 := by omega
    rw [h0, List.drop_zero]
    rw [if_neg (by simp; omega)]
    simp [h1]
  · have hlen : (R.drop (R.length - 500) ++ [(b.update dt).position]).length = 501 := by
      simp; omega
    rw [if_pos (by rw [hlen]; omega)]
    have hne : R.drop (R.length - 500) ≠ [] := by
      intro hh
      rw [hh] at hlen
      simp at hlen
    rw [tail_append_left _ _ hne, List.tail_drop]
    rw [show (R ++ [(b.update dt).position]).length - 500 = R.length - 500 + 1 by simp; omega]
    rw [List.drop_append_of_le_length (by omega)]

theorem run_body_trajectory_drop (dts : List F) :
    ∀ (b : Body) (R : List V3), b.trajectory = R.drop (R.length - 500) →
      (run_body b dts).trajectory
        = (R ++ recorded_positions b dts).drop (R.length + dts.length - 500) := by
  induction dts with
  | nil =>
    intro b R h
    simpa [run_body, recorded_positions] using h
  | cons dt rest ih =>
    intro b R h
    have hrun : run_body b (dt :: rest) = run_body (b.update dt) rest := rfl
    have hrec : recorded_positions b (dt :: rest)
        = (b.update dt).position :: recorded_positions (b.update dt) rest := rfl
    rw [hrun, hrec]
    have hstep := update_trajectory_drop b dt R h
    have hres := ih (b.update dt) (R ++ [(b.update dt).position]) hstep
    rw [hres]
    rw [List.append_assoc, List.singleton_append]
    rw [show (R ++ [(b.update dt).position]).length + rest.length - 500
      = R.length + (dt :: rest).length - 500 by simp; omega]

/-- Claim C3: starting from `Body::new` (empty trajectory) and ticking any
number of times, the trajectory is exactly the suffix of the last (at most
500) recorded positions, oldest first: its length is `min ticks 500` (so
it grows by one per tick up to the cap and is exactly 500 beyond it),
eviction is FIFO (`drop (ticks - 500)` of the chronological record), and
the oldest retained entry is the position recorded at tick
`ticks - 499` (1-based), i.e. chronological index `ticks - 500`. -/
theorem C3_trajectory_cap (pw : ℚ → ℚ → ℚ) (p v : V3) (m : F) (nm : String)
    (dts : List F) :
    (recorded_positions (Body.new pw p v m nm) dts).length = dts.length ∧
    (run_body (Body.new pw p v m nm) dts).trajectory
      = (recorded_positions (Body.new pw p v m nm) dts).drop (dts.length - 500) ∧
    (run_body (Body.new pw p v m nm) dts).trajectory.length = min dts.length 500 ∧
    (run_body (Body.new pw p v m nm) dts).trajectory.headD V3.zero
      = (recorded_positions (Body.new pw p v m nm) dts).getD (dts.length - 500) V3.zero := by
  have h0 : (Body.new pw p v m nm).trajectory
      = ([] : List V3).drop (([] : List V3).length - 500) := rfl
  have h2 := run_body_trajectory_drop dts (Body.new pw p v m nm) [] h0
  simp only [List.nil_append, List.length_nil, Nat.zero_add] at h2
  refine ⟨recorded_positions_length dts _, h2, ?_, ?_⟩
  · rw [h2, List.length_drop, recorded_positions_length]
    omega
  · rw [h2, List.headD_eq_head?_getD, List.head?_drop, List.getD_eq_getElem?_getD]

theorem filterMap_length_of_all_isSome {α β : Type} (f : α → Option β) (l : List α)
    (h : ∀ x ∈ l, (f x).isSome) : (l.filterMap f).length = l.length := by
  induction l with
  | nil => rfl
  | cons a l ih =>
    have ha := h a (List.mem_cons_self a l)
    cases hfa : f a with
    | none => rw [hfa] at ha; simp at ha
    | some b =>
      rw [List.filterMap_cons, hfa]
      simp only [List.length_cons]
      rw [ih (fun x hx => h x (List.mem_cons_of_mem a hx))]

/-- Claim C6: a record list in which one record fails validation (any
missing or malformed field makes `parse_record` yield `none`) loads all
the other, valid, records in their original relative order, skipping only
the bad one; no fatal error occurs (the embedded loader is total). -/
theorem C6_loader_partial_tolerance (pw : ℚ → ℚ → ℚ) (s : Bodies)
    (pre post : List RawRecord) (r : RawRecord)
    (hbad : parse_record pw r = none)
    (hgood : ∀ x ∈ pre ++ post, (parse_record pw x).isSome) :
    (s.parse_json pw (Except.ok (pre ++ r :: post))).bodies
      = s.bodies ++ (pre ++ post).filterMap (parse_record pw) ∧
    ((pre ++ post).filterMap (parse_record pw)).length = pre.length + post.length := by
  constructor
  · rw [parse_json_ok_eq]
    simp [List.filterMap_append, List.filterMap_cons, hbad]
  · rw [filterMap_length_of_all_isSome _ _ hgood]
    simp

/-- Witness for C6: the spec's concrete scenario — three records, the
second lacking its `mass` field — loads exactly records 1 and 3, in
order. -/
theorem C6_loader_partial_tolerance_witness :
    (parse_record (fun _ _ => 0)
        { name := some "Body 2", position := (some 400, some 300, some 50),
          velocity := (some (-1), some 0, some 6), mass := none } = none) ∧
    (Bodies.new.parse_json (fun _ _ => 0) (Except.ok
        [{ name := some "Body 1", position := (some 200, some 20, some 344),
           velocity := (some 1, some (-2), some 5), mass := some (10 ^ 12) },
         { name := some "Body 2", position := (some 400, some 300, some 50),
           velocity := (some (-1), some 0, some 6), mass := none },
         { name := some "Body 3", position := (some 300, some (-500), some 400),
           velocity := (some (-15), some 20, some (-5)), mass := some (6 * 10 ^ 16) }])).bodies
      = Bodies.new.bodies
        ++ (([{ name := some "Body 1", position := (some 200, some 20, some 344),
                velocity := (some 1, some (-2), some 5), mass := some (10 ^ 12) }]
              : List RawRecord)
            ++ ([{ name := some "Body 3", position := (some 300, some (-500), some 400),
                   velocity := (some (-15), some 20, some (-5)),
                   mass := some (6 * 10 ^ 16) }]
                 : List RawRecord)).filterMap (parse_record (fun _ _ => 0)) ∧
    ((([{ name := some "Body 1", position := (some 200, some 20, some 344),
          velocity := (some 1, some (-2), some 5), mass := some (10 ^ 12) }]
        : List RawRecord)
       ++ ([{ name := some "Body 3", position := (some 300, some (-500), some 400),
              velocity := (some (-15), some 20, some (-5)),
              mass := some (6 * 10 ^ 16) }]
            : List RawRecord)).filterMap
        (parse_record (fun _ _ => 0))).length = 1 + 1 :=
  ⟨by decide,
    C6_loader_partial_tolerance (fun _ _ => 0) Bodies.new
      [{ name := some "Body 1", position := (some 200, some 20, some 344),
         velocity := (some 1, some (-2), some 5), mass := some (10 ^ 12) }]
      [{ name := some "Body 3", position := (some 300, some (-500), some 400),
         velocity := (some (-15), some 20, some (-5)), mass := some (6 * 10 ^ 16) }]
      { name := some "Body 2", position := (some 400, some 300, some 50),
        velocity := (some (-1), some 0, some 6), mass := none }
      (by decide) (by decide)⟩

theorem foldl_flatten_eq {α β : Type} (f : β → α → β) (L : List (List α)) :
    ∀ init : β, L.flatten.foldl f init = L.foldl (fun acc l => l.foldl f acc) init := by
  induction L with
  | nil => intro init; rfl
  | cons l L ih =>
    intro init
    simp only [List.flatten_cons, List.foldl_append, List.foldl_cons]
    exact ih (l.foldl f init)

/-- The nested loops of `Bodies::total_potential_energy` visit exactly the
index pairs in `pair_indices`. -/
theorem total_potential_energy_eq_pairs (sq : ℚ → ℚ) (bs : List Body) :
    total_potential_energy_of sq bs
      = ((pair_indices bs.length).map
          (fun ij => potential_energy sq (bs.getD ij.1 default) (bs.getD ij.2 default))).foldl
          (· + ·) (F.fin 0) := by
  unfold total_potential_energy_of pair_indices
  rw [List.map_flatten, foldl_flatten_eq]
  simp only [List.map_map, Function.comp, List.foldl_map]

theorem pair_indices_mem (n i j : Nat) :
    (i, j) ∈ pair_indices n ↔ i < j ∧ j < n := by
  simp only [pair_indices, List.mem_flatten, List.mem_map, List.mem_range]
  constructor
  · rintro ⟨l, ⟨a, ha, rfl⟩, hmem⟩
    simp only [List.mem_map, List.mem_range'_1, Prod.mk.injEq] at hmem
    obtain ⟨b, hb, hba, hbb⟩ := hmem
    subst hba
    subst hbb
    omega
  · rintro ⟨hij, hjn⟩
    refine ⟨(List.range' (i + 1) (n - (i + 1))).map (fun j => (i, j)), ⟨i, by omega, rfl⟩, ?_⟩
    simp only [List.mem_map, List.mem_range'_1]
    exact ⟨j, by omega, rfl⟩

theorem pair_indices_nodup (n : Nat) : (pair_indices n).Nodup := by
  unfold pair_indices
  rw [List.nodup_flatten]
  constructor
  · intro l hl
    simp only [List.mem_map] at hl
    obtain ⟨a, ha, rfl⟩ := hl
    exact (List.nodup_range' _ _).map (fun x y hxy => by
      simpa using congrArg Prod.snd hxy)
  · rw [List.pairwise_map]
    refine List.Pairwise.imp ?_ (List.pairwise_lt_range n)
    intro a b hab
    intro x hxa hxb
    simp only [List.mem_map] at hxa hxb
    obtain ⟨ja, _, rfl⟩ := hxa
    obtain ⟨jb, _, hEq⟩ := hxb
    have := congrArg Prod.fst hEq
    simp at this
    omega

theorem update_bodies_length (sq : ℚ → ℚ) (s : Bodies) (dt : F) :
    (s.update sq dt).bodies.length = s.bodies.length := by
  simp [Bodies.update]

theorem total_potential_energy_single (sq : ℚ → ℚ) (bs : List Body)
    (h : bs.length = 1) : total_potential_energy_of sq bs = F.fin 0 := by
  unfold total_potential_energy_of
  rw [h]
  rfl

theorem run_updates_pe_single (sq : ℚ → ℚ) (dts : List F) :
    ∀ s : Bodies, s.bodies.length = 1 → dts ≠ [] →
      (run_updates sq s dts).potential_energy = F.fin 0 := by
  induction dts with
  | nil => intro s h1 h2; exact absurd rfl h2
  | cons dt rest ih =>
    intro s h1 h2
    have hrun : run_updates sq s (dt :: rest) = run_updates sq (s.update sq dt) rest := rfl
    rw [hrun]
    cases rest with
    | nil =>
      show (s.update sq dt).potential_energy = F.fin 0
      show total_potential_energy_of sq ((s.update sq dt).bodies) = F.fin 0
      exact total_potential_energy_single sq _ (by rw [update_bodies_length, h1])
    | cons dt2 rest2 =>
      exact ih (s.update sq dt) (by rw [update_bodies_length, h1]) (by simp)

/-- Claim C8: the instantaneous potential energy recomputed by
`Bodies::update` is the sum of `potential_energy(i, j)` over the unordered
pairs `i < j < n`, each pair visited exactly once (the pair list is
duplicate-free and holds exactly those pairs); consequently a Simulation
State with exactly one body has `potential_energy == 0` after every
update, for all time. -/
theorem C8_potential_energy_pairs (sq : ℚ → ℚ) (s : Bodies) (dts : List F)
    (h1 : s.bodies.length = 1) (h2 : dts ≠ []) :
    (∀ bs : List Body, total_potential_energy_of sq bs
        = ((pair_indices bs.length).map
            (fun ij => potential_energy sq (bs.getD ij.1 default) (bs.getD ij.2 default))).foldl
            (· + ·) (F.fin 0)) ∧
    (∀ n i j : Nat, (i, j) ∈ pair_indices n ↔ i < j ∧ j < n) ∧
    (∀ n : Nat, (pair_indices n).Nodup) ∧
    (run_updates sq s dts).potential_energy = F.fin 0 :=
  ⟨fun bs => total_potential_energy_eq_pairs sq bs,
    pair_indices_mem,
    pair_indices_nodup,
    run_updates_pe_single sq dts s h1 h2⟩

/-- Witness for C8: a concrete one-body state ticked once has zero
instantaneous potential energy. -/
theorem C8_potential_energy_pairs_witness :
    ((Bodies.new.add_body (Body.new (fun _ _ => 0) V3.zero V3.zero (F.fin 1) "a")).bodies.length
        = 1) ∧
    (run_updates (fun _ => 0)
        (Bodies.new.add_body (Body.new (fun _ _ => 0) V3.zero V3.zero (F.fin 1) "a"))
        [F.fin 1]).potential_energy = F.fin 0 :=
  ⟨by decide,
    (C8_potential_energy_pairs (fun _ => 0)
      (Bodies.new.add_body (Body.new (fun _ _ => 0) V3.zero V3.zero (F.fin 1) "a"))
      [F.fin 1] (by decide) (by decide)).2.2.2⟩

theorem getD_set_eq_of_lt (l : List Body) (i : Nat) (a : Body) (h : i < l.length) :
    (l.set i a).getD i default = a := by
  simp [List.getD_eq_getElem?_getD, List.getElem?_set_eq_of_lt a h]

theorem getD_set_ne (l : List Body) {i j : Nat} (a : Body) (h : i ≠ j) :
    (l.set i a).getD j default = l.getD j default := by
  simp [List.getD_eq_getElem?_getD, List.getElem?_set_ne h]

/-- `gravitational_force` reads only the positions and masses of its two
arguments. -/
theorem gravitational_force_congr (sq : ℚ → ℚ) {b1 b1' b2 b2' : Body}
    (h1p : b1.position = b1'.position) (h1m : b1.mass = b1'.mass)
    (h2p : b2.position = b2'.position) (h2m : b2.mass = b2'.mass) :
    gravitational_force sq b1 b2 = gravitational_force sq b1' b2' := by
  simp only [gravitational_force, h1p, h1m, h2p, h2m]

/-- The net force on index `i` depends only on the positions and masses in
the collection. -/
theorem force_on_congr (sq : ℚ → ℚ) (bs bs' : List Body)
    (hlen : bs.length = bs'.length)
    (h : ∀ j : Nat, (bs.getD j default).position = (bs'.getD j default).position
      ∧ (bs.getD j default).mass = (bs'.getD j default).mass) (i : Nat) :
    force_on sq bs i = force_on sq bs' i := by
  unfold force_on
  rw [hlen]
  congr 1
  funext acc j
  rw [gravitational_force_congr sq (h i).1 (h i).2 (h j).1 (h j).2]

theorem apply_force_step_def (sq : ℚ → ℚ) (dt : F) (bs : List Body) (i : Nat) :
    apply_force_step sq dt bs i
      = bs.set i ((bs.getD i default).apply_force (force_on sq bs i) dt) := rfl

theorem Body.apply_force_velocity (b : Body) (force : V3) (dt : F) :
    (b.apply_force force dt).velocity
      = b.velocity + (force.divScalar b.mass).smul dt := rfl

/-- One iteration of the `apply_force` loop changes no body's position,
mass, radius, name, or trajectory. -/
theorem apply_force_step_fields (sq : ℚ → ℚ) (dt : F) (bs : List Body) (i j : Nat) :
    ((apply_force_step sq dt bs i).getD j default).position = (bs.getD j default).position
    ∧ ((apply_force_step sq dt bs i).getD j default).mass = (bs.getD j default).mass
    ∧ ((apply_force_step sq dt bs i).getD j default).radius = (bs.getD j default).radius
    ∧ ((apply_force_step sq dt bs i).getD j default).name = (bs.getD j default).name
    ∧ ((apply_force_step sq dt bs i).getD j default).trajectory
        = (bs.getD j default).trajectory := by
  unfold apply_force_step
  by_cases hij : i = j
  · subst hij
    by_cases hi : i < bs.length
    · rw [getD_set_eq_of_lt _ _ _ hi]
      exact ⟨rfl, rfl, rfl, rfl, rfl⟩
    · rw [List.set_eq_of_length_le (Nat.le_of_not_lt hi)]
      exact ⟨rfl, rfl, rfl, rfl, rfl⟩
  · rw [getD_set_ne _ _ hij]
    exact ⟨rfl, rfl, rfl, rfl, rfl⟩

/-- Invariant of the `apply_force` loop after `k` iterations: lengths and
all non-velocity fields are untouched; the first `k` bodies already carry
the velocity kick computed from the START-OF-CALL collection `bs0` (the
loop never mutates a position or mass, so the partially updated collection
yields the same forces as the snapshot); the rest are untouched. -/
theorem apply_force_loop_spec (sq : ℚ → ℚ) (dt : F) (bs0 : List Body) :
    ∀ k : Nat, k ≤ bs0.length →
      ((List.range k).foldl (apply_force_step sq dt) bs0).length = bs0.length
      ∧ (∀ j : Nat,
          (((List.range k).foldl (apply_force_step sq dt) bs0).getD j default).position
            = (bs0.getD j default).position
          ∧ (((List.range k).foldl (apply_force_step sq dt) bs0).getD j default).mass
            = (bs0.getD j default).mass
          ∧ (((List.range k).foldl (apply_force_step sq dt) bs0).getD j default).radius
            = (bs0.getD j default).radius
          ∧ (((List.range k).foldl (apply_force_step sq dt) bs0).getD j default).name
            = (bs0.getD j default).name
          ∧ (((List.range k).foldl (apply_force_step sq dt) bs0).getD j default).trajectory
            = (bs0.getD j default).trajectory)
      ∧ (∀ j : Nat, j < k →
          (((List.range k).foldl (apply_force_step sq dt) bs0).getD j default).velocity
            = (bs0.getD j default).velocity
              + ((force_on sq bs0 j).divScalar (bs0.getD j default).mass).smul dt)
      ∧ (∀ j : Nat, k ≤ j →
          ((List.range k).foldl (apply_force_step sq dt) bs0).getD j default
            = bs0.getD j default) := by
  intro k
  induction k with
  | zero =>
    intro hk
    exact ⟨rfl, fun j => ⟨rfl, rfl, rfl, rfl, rfl⟩,
      fun j hj => absurd hj (Nat.not_lt_zero j), fun j hj => rfl⟩
  | succ k ih =>
    intro hk
    have hk' : k ≤ bs0.length := Nat.le_of_succ_le hk
    obtain ⟨ihlen, ihfields, ihvel, ihrest⟩ := ih hk'
    have hfold : (List.range (k + 1)).foldl (apply_force_step sq dt) bs0
        = apply_force_step sq dt ((List.range k).foldl (apply_force_step sq dt) bs0) k := by
      rw [List.range_succ, List.foldl_append]
      rfl
    rw [hfold]
    have hklt : k < bs0.length := Nat.lt_of_succ_le hk
    have hkr : k < ((List.range k).foldl (apply_force_step sq dt) bs0).length := by
      rw [ihlen]
      exact hklt
    have hforce : force_on sq ((List.range k).foldl (apply_force_step sq dt) bs0) k
        = force_on sq bs0 k :=
      force_on_congr sq _ bs0 ihlen (fun j => ⟨(ihfields j).1, (ihfields j).2.1⟩) k
    refine ⟨?_, ?_, ?_, ?_⟩
    · rw [apply_force_step_def, List.length_set, ihlen]
    · intro j
      obtain ⟨hp, hm, hrad, hn, ht⟩ := apply_force_step_fields sq dt
        ((List.range k).foldl (apply_force_step sq dt) bs0) k j
      obtain ⟨hp0, hm0, hrad0, hn0, ht0⟩ := ihfields j
      exact ⟨hp.trans hp0, hm.trans hm0, hrad.trans hrad0, hn.trans hn0, ht.trans ht0⟩
    · intro j hj
      by_cases hjk : j = k
      · subst hjk
        rw [apply_force_step_def, getD_set_eq_of_lt _ _ _ hkr,
          Body.apply_force_velocity, ihrest j (Nat.le_refl j), hforce]
      · have hjlt : j < k := Nat.lt_of_le_of_ne (Nat.lt_succ_iff.mp hj) hjk
        rw [apply_force_step_def, getD_set_ne _ _ (fun h => hjk h.symm)]
        exact ihvel j hjlt
    · intro j hj
      have hkj : k ≠ j := by omega
      rw [apply_force_step_def, getD_set_ne _ _ hkj]
      exact ihrest j (by omega)

theorem map_eq_of_getD {β : Type} (f : Body → β) (l l' : List Body)
    (hlen : l.length = l'.length)
    (h : ∀ j : Nat, f (l.getD j default) = f (l'.getD j default)) :
    l.map f = l'.map f := by
  apply List.ext_getElem (by simp [hlen])
  intro i h1 h2
  simp only [List.getElem_map]
  have hi1 : i < l.length := by simpa using h1
  have hi2 : i < l'.length := by simpa using h2
  have hthis := h i
  simpa only [List.getD_eq_getElem?_getD, List.getElem?_eq_getElem hi1,
    List.getElem?_eq_getElem hi2, Option.getD_some] using hthis

/-- Claim C2: `Bodies::apply_force(dt)` adds to each body `i`'s velocity
exactly `(F_i / mass_i) * dt`, where `F_i = force_on` is the sum over all
`j != i` of the pairwise gravitational forces evaluated on the
start-of-call collection (no position or mass is mutated during the call,
so every pairwise force uses the pre-tick snapshot), and mutates nothing
else: every body's position, mass, radius, name and trajectory, and every
scalar field of the Simulation State, are unchanged. -/
theorem C2_apply_force_velocity_kick (sq : ℚ → ℚ) (s : Bodies) (dt : F) :
    (s.apply_force sq dt).bodies.map Body.position = s.bodies.map Body.position ∧
    (s.apply_force sq dt).bodies.map Body.mass = s.bodies.map Body.mass ∧
    (s.apply_force sq dt).bodies.map Body.radius = s.bodies.map Body.radius ∧
    (s.apply_force sq dt).bodies.map Body.name = s.bodies.map Body.name ∧
    (s.apply_force sq dt).bodies.map Body.trajectory = s.bodies.map Body.trajectory ∧
    (s.apply_force sq dt).bodies.map Body.velocity
      = (List.range s.bodies.length).map (fun i =>
          (s.bodies.getD i default).velocity
            + ((force_on sq s.bodies i).divScalar (s.bodies.getD i default).mass).smul dt) ∧
    (s.apply_force sq dt).total_potential_energy = s.total_potential_energy ∧
    (s.apply_force sq dt).total_kinetic_energy = s.total_kinetic_energy ∧
    (s.apply_force sq dt).time_averaged_potential_energy = s.time_averaged_potential_energy ∧
    (s.apply_force sq dt).time_averaged_kinetic_energy = s.time_averaged_kinetic_energy ∧
    (s.apply_force sq dt).total_time = s.total_time ∧
    (s.apply_force sq dt).kinetic_energy = s.kinetic_energy ∧
    (s.apply_force sq dt).potential_energy = s.potential_energy := by
  obtain ⟨hlen, hfields, hvel, hrest⟩ :=
    apply_force_loop_spec sq dt s.bodies s.bodies.length (Nat.le_refl _)
  have hb : (s.apply_force sq dt).bodies
      = (List.range s.bodies.length).foldl (apply_force_step sq dt) s.bodies := rfl
  refine ⟨?_, ?_, ?_, ?_, ?_, ?_, rfl, rfl, rfl, rfl, rfl, rfl, rfl⟩
  · rw [hb]
    exact map_eq_of_getD Body.position _ _ hlen (fun j => (hfields j).1)
  · rw [hb]
    exact map_eq_of_getD Body.mass _ _ hlen (fun j => (hfields j).2.1)
  · rw [hb]
    exact map_eq_of_getD Body.radius _ _ hlen (fun j => (hfields j).2.2.1)
  · rw [hb]
    exact map_eq_of_getD Body.name _ _ hlen (fun j => (hfields j).2.2.2.1)
  · rw [hb]
    exact map_eq_of_getD Body.trajectory _ _ hlen (fun j => (hfields j).2.2.2.2)
  · rw [hb]
    apply List.ext_getElem (by simp [hlen])
    intro i h1 h2
    have hi1 : i < ((List.range s.bodies.length).foldl (apply_force_step sq dt) s.bodies).length := by
      simpa using h1
    have hilen : i < s.bodies.length := by simpa using h2
    simp only [List.getElem_map, List.getElem_range]
    have hv := hvel i hilen
    simpa only [List.getD_eq_getElem?_getD, List.getElem?_eq_getElem hi1,
      Option.getD_some] using hv

theorem V3.sub_mk (x y z x' y' z' : F) :
    (⟨x, y, z⟩ : V3) - ⟨x', y', z'⟩ = ⟨x - x', y - y', z - z'⟩ := rfl

theorem V3.smul_nan (v : V3) : v.smul F.nan = ⟨F.nan, F.nan, F.nan⟩ := by
  cases v with
  | mk x y z => simp [V3.smul, F.mul_nan]

theorem nanvec_smul (c : F) :
    (⟨F.nan, F.nan, F.nan⟩ : V3).smul c = ⟨F.nan, F.nan, F.nan⟩ := by
  simp [V3.smul, F.nan_mul]

/-- The IEEE length of the zero offset `v - v`: `sqrt 0 = 0` when every
component is finite, NaN when any component is non-finite. -/
theorem length_sub_self (sq : ℚ → ℚ) (h0 : sq 0 = 0) (v : V3) :
    (v - v).length sq = F.fin 0 ∨ (v - v).length sq = F.nan := by
  cases v with
  | mk x y z =>
    cases x <;> cases y <;> cases z <;>
      simp [V3.sub_mk, V3.length, V3.dot, F.sqrtF, h0,
        F.fin_sub_fin, F.nan_sub, F.sub_nan,
        F.fin_mul_fin, F.nan_mul, F.mul_nan,
        F.fin_add_fin, F.nan_add, F.add_nan]

/-- Normalizing the zero offset divides by the raw, unfloored length 0 —
every component of the result is non-finite. -/
theorem normalize_sub_self (sq : ℚ → ℚ) (h0 : sq 0 = 0) (v : V3) :
    (v - v).normalize sq = ⟨F.nan, F.nan, F.nan⟩ := by
  unfold V3.normalize
  have hrec : ((v - v).length sq).recip = F.nan := by
    rcases length_sub_self sq h0 v with h | h <;>
      rw [h] <;> simp [F.recip, F.fin_div_fin, F.div_nan]
  rw [hrec, V3.smul_nan]

/-- Claim C1, settled against the code: at separation 0 the distance floor
does keep `potential_energy` finite, but `gravitational_force` is NOT
finite — `direction.normalize()` divides by the raw zero length (the floor
is applied only inside the magnitude), so every component of the returned
force is NaN. -/
theorem C1_zero_distance_force_nan (sq : ℚ → ℚ) (h0 : sq 0 = 0) (a b : Body)
    (ma mb : ℚ) (hma : a.mass = F.fin ma) (hmb : b.mass = F.fin mb)
    (hpos : a.position = b.position) :
    gravitational_force sq a b = ⟨F.nan, F.nan, F.nan⟩ ∧
    potential_energy sq a b = F.fin (-(G * ma * mb)) := by
  constructor
  · simp only [gravitational_force]
    rw [hpos, normalize_sub_self sq h0 b.position, nanvec_smul]
  · simp only [potential_energy]
    rw [hpos]
    have hdist : ((b.position - b.position).length sq).fmax (F.fin 1) = F.fin 1 := by
      rcases length_sub_self sq h0 b.position with h | h <;> rw [h] <;>
        norm_num [F.fmax]
    rw [hdist, hma, hmb, F.fin_mul_fin, F.fin_mul_fin, F.fin_div_fin]
    norm_num

/-- Witness for C1: two concrete unit-mass bodies at the origin — the
force vector is all-NaN while the potential energy is the finite value
`-G`. -/
theorem C1_zero_distance_force_nan_witness :
    ((fun _ : ℚ => (0 : ℚ)) 0 = 0) ∧
    (Body.new (fun _ _ => 0) V3.zero V3.zero (F.fin 1) "a").mass = F.fin 1 ∧
    (Body.new (fun _ _ => 0) V3.zero V3.zero (F.fin 1) "b").mass = F.fin 1 ∧
    (Body.new (fun _ _ => 0) V3.zero V3.zero (F.fin 1) "a").position
      = (Body.new (fun _ _ => 0) V3.zero V3.zero (F.fin 1) "b").position ∧
    (gravitational_force (fun _ => 0)
        (Body.new (fun _ _ => 0) V3.zero V3.zero (F.fin 1) "a")
        (Body.new (fun _ _ => 0) V3.zero V3.zero (F.fin 1) "b")
      = ⟨F.nan, F.nan, F.nan⟩ ∧
     potential_energy (fun _ => 0)
        (Body.new (fun _ _ => 0) V3.zero V3.zero (F.fin 1) "a")
        (Body.new (fun _ _ => 0) V3.zero V3.zero (F.fin 1) "b")
      = F.fin (-(G * 1 * 1))) :=
  ⟨rfl, rfl, rfl, rfl,
    C1_zero_distance_force_nan (fun _ => 0) rfl
      (Body.new (fun _ _ => 0) V3.zero V3.zero (F.fin 1) "a")
      (Body.new (fun _ _ => 0) V3.zero V3.zero (F.fin 1) "b")
      1 1 rfl rfl rfl⟩

end n_body
